import Mathlib

/-!
Shallow embedding of `src/game/rooms.js` from the ofc-pineapple-tourney
repository: the room/round state machine handlers, the atomic batch
validator/committer `applyBatch`, the legacy single-action `placeHandler`,
the join/start handlers and the redacted public `room_state` payload.

Cards and row names are the JS strings; the players map is an
insertion-ordered association list mirroring the JS `Map`; the pluggable
random source of the deal is modelled by passing the shuffled deck as an
explicit list.  Handlers that in JS mutate the room in place are embedded
as pure functions from the old room to the new room (plus the emitted
error / reveal payload), with the early-return-on-error structure of the
source kept intact.
-/

namespace OFC

abbrev Card := String

structure Board where
  top : List Card
  middle : List Card
  bottom : List Card
deriving DecidableEq, Repr

structure Player where
  userId : String
  name : String
  board : Board
  hand : List Card
  discards : List Card
  ready : Bool
deriving DecidableEq, Repr

/-- Player-count bounds from `rules.players` (rules.js is imported by
rooms.js; the concrete constants are irrelevant, so the embedding is
parametric in them). -/
structure PlayerBounds where
  min : Nat
  max : Nat
deriving DecidableEq, Repr

/-- Row capacities from `rules.layout`. -/
structure LayoutRules where
  top : Nat
  middle : Nat
  bottom : Nat
deriving DecidableEq, Repr

/-- Deal configuration from `rules.deal`. -/
structure DealRules where
  initialSetCount : Nat
  rounds : Nat
  cardsPerRound : Nat
  placeCountPerRound : Nat
deriving DecidableEq, Repr

structure Rules where
  players : PlayerBounds
  layout : LayoutRules
  deal : DealRules
deriving DecidableEq, Repr

/-- A room.  `players` is an insertion-ordered association list mirroring
the JS `Map`; `deck` is the room's remaining shuffled deck (held by the
state module and consumed by the deal operations). -/
structure Room where
  id : String
  phase : String
  round : Nat
  roundIndex : Nat
  players : List (String × Player)
  deck : List Card
deriving DecidableEq, Repr

/-- `Map.prototype.get`. -/
def mapGet (m : List (String × Player)) (k : String) : Option Player :=
  match m with
  | [] => none
  | (k', v) :: rest => if k' = k then some v else mapGet rest k

/-- `Map.prototype.set`: replaces an existing key in place, otherwise
appends in insertion order. -/
def mapSet (m : List (String × Player)) (k : String) (v : Player) :
    List (String × Player) :=
  match m with
  | [] => [(k, v)]
  | (k', v') :: rest => if k' = k then (k, v) :: rest else (k', v') :: mapSet rest k v

/-- The `!board[row]` validity test of the source: the board object has
exactly the own properties `top`, `middle`, `bottom`. -/
def validRow (row : String) : Bool :=
  row = "top" || row = "middle" || row = "bottom"

/-- The row-capacity lookup of the source, with its fall-through to the
bottom capacity for any row other than top/middle. -/
def rowLimit (rules : Rules) (row : String) : Nat :=
  if row = "top" then rules.layout.top
  else if row = "middle" then rules.layout.middle
  else rules.layout.bottom

/-- `board[row]` for a valid row, with the same fall-through shape. -/
def rowGet (b : Board) (row : String) : List Card :=
  if row = "top" then b.top
  else if row = "middle" then b.middle
  else b.bottom

/-- `board[row].push(card)`. -/
def rowPush (b : Board) (row : String) (c : Card) : Board :=
  if row = "top" then { b with top := b.top ++ [c] }
  else if row = "middle" then { b with middle := b.middle ++ [c] }
  else { b with bottom := b.bottom ++ [c] }

structure Placement where
  row : String
  card : Card
deriving DecidableEq, Repr

inductive BatchError where
  | CardNotInHand
  | InvalidRow
  | RowFull
  | WrongPlacementCount
  | DiscardRequired
  | DiscardNotAllowed
deriving DecidableEq, Repr

/-- One placement's validation, in the source's order: `hand.indexOf(card)`
(CardNotInHand), then `!board[row]` (InvalidRow), then the capacity test
(RowFull). -/
def placeCheck (rules : Rules) (hand : List Card) (board : Board)
    (pl : Placement) : Option BatchError :=
  if ¬ hand.contains pl.card then some .CardNotInHand
  else if ¬ validRow pl.row then some .InvalidRow
  else if rowLimit rules pl.row ≤ (rowGet board pl.row).length then some .RowFull
  else none

/-- The placement loop of `applyBatch`, run over the working copies of the
hand and board, in submitted order; on success the card moves from the hand
copy (`hand.splice(idx, 1)`, i.e. first occurrence erased) to the row copy. -/
def placeLoop (rules : Rules) :
    List Placement → List Card → Board → Except BatchError (List Card × Board)
  | [], hand, board => .ok (hand, board)
  | pl :: rest, hand, board =>
    match placeCheck rules hand board pl with
    | some e => .error e
    | none => placeLoop rules rest (hand.erase pl.card) (rowPush board pl.row pl.card)

structure Batch where
  placements : List Placement
  discard : Option Card
deriving DecidableEq, Repr

/-- The placement-then-discard part of `applyBatch`, after the per-phase
count/discard checks: the discard is looked up in the hand copy already
reduced by the placements, and on full success the player's real
hand/board are replaced by the working copies and the discard is pushed
onto `discards`.  `ready` is untouched. -/
def applyBatchCore (rules : Rules) (p : Player) (b : Batch) :
    Except BatchError Player :=
  match placeLoop rules b.placements p.hand p.board with
  | .error e => .error e
  | .ok (hand, board) =>
    match b.discard with
    | none => .ok { p with hand := hand, board := board }
    | some d =>
      if hand.contains d then
        .ok { p with hand := hand.erase d, board := board,
                     discards := p.discards ++ [d] }
      else .error .CardNotInHand

/-- `applyBatch(room, player, {placements, discard})` from rooms.js,
keyed on the room's phase: during initial-set a discard is forbidden and
no placement count is enforced; otherwise exactly
`placeCountPerRound` placements and exactly one discard are required. -/
def applyBatch (rules : Rules) (phase : String) (p : Player) (b : Batch) :
    Except BatchError Player :=
  if phase = "initial-set" then
    if b.discard.isSome then .error .DiscardNotAllowed
    else applyBatchCore rules p b
  else
    if b.placements.length ≠ rules.deal.placeCountPerRound then
      .error .WrongPlacementCount
    else if b.discard.isNone then .error .DiscardRequired
    else applyBatchCore rules p b

/-- Modelled from the spec: `allReady` lives in `src/game/state.js`, which
is imported by rooms.js but absent from the sources; per §4.4 it is true
iff every player's `ready` flag is set. -/
def allReady (room : Room) : Bool :=
  room.players.all (fun kv => kv.2.ready)

/-- Sequentially give each player `n` cards off the top of the deck,
appending to that player's hand, and return the updated players together
with the rest of the deck. -/
def dealGo (n : Nat) :
    List (String × Player) → List Card → List (String × Player) × List Card
  | [], deck => ([], deck)
  | (k, p) :: rest, deck =>
    let res := dealGo n rest (deck.drop n)
    ((k, { p with hand := p.hand ++ deck.take n }) :: res.1, res.2)

/-- Modelled from the spec: `dealToAll(room, n)` lives in
`src/game/state.js`, absent from the sources; per §4.4 it draws `n` fresh
cards from the room's remaining deck into every player's hand and fails
with DeckExhausted (here `none`) if insufficient cards remain. -/
def dealToAll (room : Room) (n : Nat) : Option Room :=
  if room.deck.length < n * room.players.length then none
  else
    let res := dealGo n room.players room.deck
    some { room with players := res.1, deck := res.2 }

/-- The flag reset `for (const pl of room.players.values()) pl.ready = false`. -/
def clearReady (ps : List (String × Player)) : List (String × Player) :=
  ps.map (fun kv => (kv.1, { kv.2 with ready := false }))

/-- Result of one `readyHandler` call: the room afterwards, the error
emitted to the offending player (if any), the reveal payload handed to
settlement when the final barrier fires (the boards, keyed by user id),
and whether the spec-level DeckExhausted fatality was hit. -/
structure ReadyOutcome where
  room : Room
  err : Option BatchError
  reveal : Option (List (String × Board))
  fatalDeck : Bool
deriving DecidableEq, Repr

/-- The barrier / phase-transition block of `readyHandler` (the body of
`if (allReady(room))`), run on the room in which the committing player's
ready flag has just been set: if not every player is ready nothing further
happens; otherwise every ready flag is reset, and while `roundIndex` is
below `deal.rounds` the next pineapple round is dealt (phase `round`,
`roundIndex + 1`), else the room moves to `reveal` and the boards are
handed to settlement. -/
def advanceAfterCommit (rules : Rules) (room1 : Room) : ReadyOutcome :=
  if allReady room1 then
    let room2 : Room := { room1 with players := clearReady room1.players }
    if room1.roundIndex < rules.deal.rounds then
      match dealToAll room2 rules.deal.cardsPerRound with
      | some room3 =>
        ⟨{ room3 with phase := "round", roundIndex := room3.roundIndex + 1 },
          none, none, false⟩
      | none => ⟨room2, none, none, true⟩
    else
      ⟨{ room2 with phase := "reveal" }, none,
        some (room2.players.map (fun kv => (kv.2.userId, kv.2.board))), false⟩
  else ⟨room1, none, none, false⟩

/-- `readyHandler` from rooms.js: apply the player's staged batch; on
failure emit the error and leave the room untouched; on success set that
player's `ready` and run the barrier block. -/
def readyHandler (rules : Rules) (room : Room) (userId : String) (b : Batch) :
    ReadyOutcome :=
  match mapGet room.players userId with
  | none => ⟨room, none, none, false⟩
  | some p =>
    match applyBatch rules room.phase p b with
    | .error e => ⟨room, some e, none, false⟩
    | .ok p' =>
      advanceAfterCommit rules
        { room with players := mapSet room.players userId { p' with ready := true } }

/-- The loop of the legacy `placeHandler`: unlike `applyBatch` it mutates
the player's real hand and board one placement at a time and returns on the
first invalid placement, leaving the earlier placements committed. -/
def placeHandlerLoop (rules : Rules) :
    List Placement → Player → Option BatchError × Player
  | [], p => (none, p)
  | pl :: rest, p =>
    match placeCheck rules p.hand p.board pl with
    | some e => (some e, p)
    | none =>
      placeHandlerLoop rules rest
        { p with hand := p.hand.erase pl.card, board := rowPush p.board pl.row pl.card }

inductive StartError where
  | InsufficientPlayers
deriving DecidableEq, Repr

/-- Reset used by a new hand: boards, hands, discards and ready flags
cleared, identity kept. -/
def resetForHand (ps : List (String × Player)) : List (String × Player) :=
  ps.map (fun kv =>
    (kv.1, { kv.2 with board := ⟨[], [], []⟩, hand := [], discards := [],
                       ready := false }))

/-- Modelled from the spec: `startRound(room)` lives in
`src/game/state.js`, absent from the sources; per §4.4 it requires
`players.size ∈ [min, max]` and fails with InsufficientPlayers otherwise,
shuffles a fresh deck (the pluggable random source is modelled by taking
the shuffled deck as the argument `deck`), deals `initialSetCount` cards to
every player's hand, sets phase to initial-set, increments `round`, resets
`roundIndex` to 0 and clears all boards/discards/ready flags. -/
def startRound (rules : Rules) (deck : List Card) (room : Room) :
    Except StartError Room :=
  if room.players.length < rules.players.min ∨
      rules.players.max < room.players.length then
    .error .InsufficientPlayers
  else
    let res := dealGo rules.deal.initialSetCount (resetForHand room.players) deck
    .ok { room with phase := "initial-set", round := room.round + 1,
                    roundIndex := 0, players := res.1, deck := res.2 }

/-- `startRoundHandler` from rooms.js: rejects with "Need more players"
(InsufficientPlayers) when the player count is below the minimum, then
delegates to `startRound`. -/
def startRoundHandler (rules : Rules) (deck : List Card) (room : Room) :
    Except StartError Room :=
  if room.players.length < rules.players.min then .error .InsufficientPlayers
  else startRound rules deck room

inductive JoinError where
  | RoomFull
deriving DecidableEq, Repr

/-- The `name || ("Player-" + userId.slice(-4))` default of the join
handler. -/
def defaultName (userId : String) : String :=
  "Player-" ++ userId.takeRight 4

/-- The fresh player entry installed by `joinRoomHandler`. -/
def freshPlayer (userId nm : String) : Player :=
  { userId := userId
    name := if nm = "" then defaultName userId else nm
    board := ⟨[], [], []⟩
    hand := []
    discards := []
    ready := false }

/-- `joinRoomHandler` from rooms.js: rejects with RoomFull when the player
count has reached the maximum (before looking at the joining id), otherwise
installs a fresh player entry under the id via `Map.set`. -/
def joinRoomHandler (rules : Rules) (room : Room) (userId nm : String) :
    Except JoinError Room :=
  if rules.players.max ≤ room.players.length then .error .RoomFull
  else .ok { room with players := mapSet room.players userId (freshPlayer userId nm) }

structure PlacedCounts where
  top : Nat
  middle : Nat
  bottom : Nat
deriving DecidableEq, Repr

structure PublicPlayer where
  userId : String
  name : String
  placed : PlacedCounts
  ready : Bool
deriving DecidableEq, Repr

structure RoomStatePayload where
  roomId : String
  phase : String
  round : Nat
  players : List PublicPlayer
deriving DecidableEq, Repr

/-- The per-player redaction of `emitRoomState`. -/
def publicPlayer (p : Player) : PublicPlayer :=
  { userId := p.userId
    name := p.name
    placed := ⟨p.board.top.length, p.board.middle.length, p.board.bottom.length⟩
    ready := p.ready }

/-- The public `room_state` payload built by `emitRoomState` (the socket
broadcast itself is transport and elided). -/
def emitRoomState (room : Room) : RoomStatePayload :=
  { roomId := room.id
    phase := room.phase
    round := room.round
    players := room.players.map (fun kv => publicPlayer kv.2) }

/-- Total cards sitting on a board. -/
def boardTotal (b : Board) : Nat :=
  b.top.length + b.middle.length + b.bottom.length

/-- The conserved quantity `|hand| + |top|+|middle|+|bottom| + |discards|`. -/
def cardTotal (p : Player) : Nat :=
  p.hand.length + boardTotal p.board + p.discards.length

/-- A concrete rules instance (standard pineapple constants) used by the
evaluated examples below. -/
def sampleRules : Rules :=
  { players := ⟨2, 4⟩
    layout := ⟨3, 5, 5⟩
    deal := { initialSetCount := 5, rounds := 4, cardsPerRound := 3,
              placeCountPerRound := 2 } }

/-! ## Helper lemmas -/

theorem boardTotal_rowPush (b : Board) (row : String) (c : Card) :
    boardTotal (rowPush b row c) = boardTotal b + 1 := by
  unfold rowPush boardTotal
  split_ifs <;> simp <;> omega

theorem placeCheck_eq_none (rules : Rules) {hand : List Card} {board : Board}
    {pl : Placement} (h : placeCheck rules hand board pl = none) :
    hand.contains pl.card = true ∧ validRow pl.row = true ∧
      (rowGet board pl.row).length < rowLimit rules pl.row := by
  unfold placeCheck at h
  split_ifs at h with h1 h2 h3
  refine ⟨?_, ?_, ?_⟩
  · simpa using h1
  · simpa using h2
  · omega

theorem placeLoop_conserve (rules : Rules) :
    ∀ (ps : List Placement) (hand : List Card) (board : Board)
      (h : List Card) (bd : Board),
      placeLoop rules ps hand board = .ok (h, bd) →
      h.length + boardTotal bd = hand.length + boardTotal board := by
  intro ps
  induction ps with
  | nil =>
    intro hand board h bd hok
    simp only [placeLoop] at hok
    obtain ⟨rfl, rfl⟩ := by simpa using hok
    rfl
  | cons pl rest ih =>
    intro hand board h bd hok
    simp only [placeLoop] at hok
    cases hc : placeCheck rules hand board pl with
    | some e => rw [hc] at hok; simp at hok
    | none =>
      rw [hc] at hok
      obtain ⟨hmem, -, -⟩ := placeCheck_eq_none rules hc
      have hmem' : pl.card ∈ hand := by simpa using hmem
      have hlen : (hand.erase pl.card).length = hand.length - 1 :=
        List.length_erase_of_mem hmem'
      have hpos : 0 < hand.length := List.length_pos_of_mem hmem'
      have := ih (hand.erase pl.card) (rowPush board pl.row pl.card) h bd hok
      rw [hlen, boardTotal_rowPush] at this
      omega

theorem applyBatchCore_conserve (rules : Rules) (p p' : Player) (b : Batch)
    (hok : applyBatchCore rules p b = .ok p') :
    cardTotal p' = cardTotal p := by
  unfold applyBatchCore at hok
  cases hpl : placeLoop rules b.placements p.hand p.board with
  | error e => rw [hpl] at hok; simp at hok
  | ok hb =>
    obtain ⟨hand, board⟩ := hb
    rw [hpl] at hok
    have hcons := placeLoop_conserve rules b.placements p.hand p.board hand board hpl
    cases hd : b.discard with
    | none =>
      rw [hd] at hok
      simp only [Except.ok.injEq] at hok
      subst hok
      simp only [cardTotal]
      omega
    | some d =>
      rw [hd] at hok
      by_cases hcont : hand.contains d = true
      · simp only [hcont, if_true, Except.ok.injEq] at hok
        subst hok
        have hdmem : d ∈ hand := by simpa using hcont
        have hlen : (hand.erase d).length = hand.length - 1 :=
          List.length_erase_of_mem hdmem
        have hpos : 0 < hand.length := List.length_pos_of_mem hdmem
        simp only [cardTotal, List.length_append, List.length_cons,
          List.length_nil]
        rw [hlen]
        omega
      · simp only [hcont, if_false] at hok
        simp at hok

/-! ## Sample inputs for the evaluated examples -/

def samplePlayerA : Player :=
  { userId := "u1", name := "A", board := ⟨[], [], []⟩,
    hand := ["As", "Kd", "Qh"], discards := [], ready := false }

def samplePlayerA2 : Player :=
  { userId := "u1", name := "A", board := ⟨["As"], ["Kd"], []⟩,
    hand := [], discards := ["Qh"], ready := false }

def sampleBatchA : Batch :=
  { placements := [⟨"top", "As"⟩, ⟨"middle", "Kd"⟩], discard := some "Qh" }

def sampleRoomRound : Room :=
  { id := "r", phase := "round", round := 1, roundIndex := 1, players := [],
    deck := [] }

def sampleRoomInitial : Room :=
  { id := "r", phase := "initial-set", round := 1, roundIndex := 0,
    players := [], deck := [] }

def samplePlayerB : Player :=
  { userId := "u1", name := "A", board := ⟨[], [], []⟩,
    hand := ["As", "Kd", "Qh", "Jc", "Ts"], discards := [], ready := false }

/-! ## Claim theorems -/

/-- C3: every successful applyBatch call preserves the quantity
`|hand| + |top| + |middle| + |bottom| + |discards|`: each accepted
placement moves exactly one card from hand to a board row, an accepted
discard moves exactly one card from hand to discards, and no card is
created or lost by the commit. -/
theorem applyBatch_conserves_cards (rules : Rules) (phase : String)
    (p p' : Player) (b : Batch)
    (hok : applyBatch rules phase p b = .ok p') :
    cardTotal p' = cardTotal p := by
  unfold applyBatch at hok
  split_ifs at hok
  all_goals exact applyBatchCore_conserve rules p p' b hok

/-- Witness for C3: a successful concrete commit (two placements and one
discard during a pineapple round) preserves the card total. -/
theorem applyBatch_conserves_cards_witness :
    applyBatch sampleRules "round" samplePlayerA sampleBatchA = .ok samplePlayerA2 ∧
    cardTotal samplePlayerA2 = cardTotal samplePlayerA :=
  ⟨rfl, applyBatch_conserves_cards sampleRules "round" samplePlayerA
    samplePlayerA2 sampleBatchA rfl⟩

/-- C4: in a room whose phase is not initial-set (a pineapple round),
applyBatch fails with WrongPlacementCount whenever the number of submitted
placements differs from `deal.placeCountPerRound`, fails with
DiscardRequired when the count is right but no discard is submitted, and
can succeed only with exactly `placeCountPerRound` placements and exactly
one discard. -/
theorem applyBatch_round_requirements (rules : Rules) (room : Room)
    (p : Player) (b : Batch) (hph : room.phase ≠ "initial-set") :
    (b.placements.length ≠ rules.deal.placeCountPerRound →
      applyBatch rules room.phase p b = .error .WrongPlacementCount) ∧
    (b.placements.length = rules.deal.placeCountPerRound → b.discard = none →
      applyBatch rules room.phase p b = .error .DiscardRequired) ∧
    (∀ p', applyBatch rules room.phase p b = .ok p' →
      b.placements.length = rules.deal.placeCountPerRound ∧ b.discard.isSome) := by
  refine ⟨fun hc => ?_, fun hc hd => ?_, fun p' hok => ?_⟩
  · unfold applyBatch
    rw [if_neg hph, if_pos hc]
  · unfold applyBatch
    rw [if_neg hph, if_neg (by simp [hc]), if_pos (by simp [hd])]
  · unfold applyBatch at hok
    rw [if_neg hph] at hok
    by_cases hc : b.placements.length = rules.deal.placeCountPerRound
    · refine ⟨hc, ?_⟩
      cases hdc : b.discard with
      | some d => rfl
      | none =>
        rw [if_neg (by simp [hc]), if_pos (by simp [hdc])] at hok
        simp at hok
    · rw [if_pos hc] at hok; simp at hok

/-- Witness for C4: with the sample rules in phase "round", one placement
instead of two is rejected with WrongPlacementCount, and two placements
with no discard are rejected with DiscardRequired. -/
theorem applyBatch_round_requirements_witness :
    applyBatch sampleRules "round" samplePlayerA
        { placements := [⟨"top", "As"⟩], discard := some "Qh" } =
      .error .WrongPlacementCount ∧
    applyBatch sampleRules "round" samplePlayerA
        { placements := [⟨"top", "As"⟩, ⟨"middle", "Kd"⟩], discard := none } =
      .error .DiscardRequired :=
  ⟨(applyBatch_round_requirements sampleRules sampleRoomRound samplePlayerA
      { placements := [⟨"top", "As"⟩], discard := some "Qh" }
      (by decide)).1 (by decide),
   (applyBatch_round_requirements sampleRules sampleRoomRound samplePlayerA
      { placements := [⟨"top", "As"⟩, ⟨"middle", "Kd"⟩], discard := none }
      (by decide)).2.1 (by decide) rfl⟩

/-- C5: in a room whose phase is initial-set, applyBatch fails with
DiscardNotAllowed whenever a discard is submitted; with no discard it is
exactly the per-placement loop (no minimum or maximum placement count is
enforced beyond the per-placement checks), and in particular an empty batch
is accepted unchanged. -/
theorem applyBatch_initial_set_permissive (rules : Rules) (room : Room)
    (p : Player) (b : Batch) (hph : room.phase = "initial-set") :
    (∀ d, b.discard = some d →
      applyBatch rules room.phase p b = .error .DiscardNotAllowed) ∧
    (b.discard = none →
      applyBatch rules room.phase p b =
        match placeLoop rules b.placements p.hand p.board with
        | .error e => .error e
        | .ok hb => .ok { p with hand := hb.1, board := hb.2 }) ∧
    (b.discard = none → b.placements = [] →
      applyBatch rules room.phase p b = .ok p) := by
  refine ⟨fun d hd => ?_, fun hd => ?_, fun hd hps => ?_⟩
  · unfold applyBatch
    rw [if_pos hph, if_pos (by simp [hd])]
  · unfold applyBatch
    rw [if_pos hph, if_neg (by simp [hd])]
    unfold applyBatchCore
    rw [hd]
    cases placeLoop rules b.placements p.hand p.board with
    | error e => rfl
    | ok hb => rfl
  · unfold applyBatch
    rw [if_pos hph, if_neg (by simp [hd])]
    unfold applyBatchCore
    rw [hd, hps]
    rfl

/-- Witness for C5: during initial-set a discard is rejected with
DiscardNotAllowed, and a batch of zero placements (fewer than the five
cards in hand) is accepted unchanged. -/
theorem applyBatch_initial_set_permissive_witness :
    applyBatch sampleRules "initial-set" samplePlayerB
        { placements := [], discard := some "As" } = .error .DiscardNotAllowed ∧
    applyBatch sampleRules "initial-set" samplePlayerB
        { placements := [], discard := none } = .ok samplePlayerB :=
  ⟨(applyBatch_initial_set_permissive sampleRules sampleRoomInitial samplePlayerB
      { placements := [], discard := some "As" } rfl).1 "As" rfl,
   (applyBatch_initial_set_permissive sampleRules sampleRoomInitial samplePlayerB
      { placements := [], discard := none } rfl).2.2 rfl rfl⟩

/-- C1: when applyBatch rejects a batch with any move-legality error, the
failing readyHandler call emits exactly that error and leaves the room —
in particular the player's hand, board rows and discards — byte-for-byte
unchanged, and does not set the player's ready flag. -/
theorem readyHandler_reject_frame (rules : Rules) (room : Room)
    (userId : String) (b : Batch) (p : Player) (e : BatchError)
    (hp : mapGet room.players userId = some p)
    (he : applyBatch rules room.phase p b = .error e) :
    readyHandler rules room userId b = ⟨room, some e, none, false⟩ ∧
    mapGet (readyHandler rules room userId b).room.players userId = some p := by
  have h1 : readyHandler rules room userId b = ⟨room, some e, none, false⟩ := by
    unfold readyHandler
    simp only [hp, he]
  exact ⟨h1, by rw [h1]; exact hp⟩

/-- Witness for C1: a discard during initial-set is rejected with
DiscardNotAllowed and the concrete one-player room comes back unchanged,
the player's ready flag still false. -/
theorem readyHandler_reject_frame_witness :
    readyHandler sampleRules
        { id := "r", phase := "initial-set", round := 1, roundIndex := 0,
          players := [("u1", samplePlayerB)], deck := [] } "u1"
        { placements := [], discard := some "As" } =
      ⟨{ id := "r", phase := "initial-set", round := 1, roundIndex := 0,
         players := [("u1", samplePlayerB)], deck := [] },
        some .DiscardNotAllowed, none, false⟩ ∧
    mapGet (readyHandler sampleRules
        { id := "r", phase := "initial-set", round := 1, roundIndex := 0,
          players := [("u1", samplePlayerB)], deck := [] } "u1"
        { placements := [], discard := some "As" }).room.players "u1" =
      some samplePlayerB :=
  readyHandler_reject_frame sampleRules
    { id := "r", phase := "initial-set", round := 1, roundIndex := 0,
      players := [("u1", samplePlayerB)], deck := [] } "u1"
    { placements := [], discard := some "As" } samplePlayerB
    .DiscardNotAllowed rfl rfl

theorem placeLoop_count (rules : Rules) :
    ∀ (ps : List Placement) (hand : List Card) (board : Board)
      (h : List Card) (bd : Board),
      placeLoop rules ps hand board = .ok (h, bd) →
      ∀ c : Card, h.count c + (ps.map Placement.card).count c = hand.count c := by
  intro ps
  induction ps with
  | nil =>
    intro hand board h bd hok c
    simp only [placeLoop] at hok
    obtain ⟨rfl, rfl⟩ := by simpa using hok
    simp
  | cons pl rest ih =>
    intro hand board h bd hok c
    simp only [placeLoop] at hok
    cases hc : placeCheck rules hand board pl with
    | some e => rw [hc] at hok; simp at hok
    | none =>
      rw [hc] at hok
      obtain ⟨hmem, -, -⟩ := placeCheck_eq_none rules hc
      have hmem' : pl.card ∈ hand := by simpa using hmem
      have hcount : 0 < hand.count pl.card := List.count_pos_iff.mpr hmem'
      have hrec := ih (hand.erase pl.card) (rowPush board pl.row pl.card) h bd hok c
      rw [List.count_erase] at hrec
      simp only [List.map_cons, List.count_cons]
      by_cases hcc : c = pl.card
      · subst hcc
        simp only [beq_self_eq_true, if_true] at hrec ⊢
        omega
      · have h1 : (pl.card == c) = false := by
          simp [beq_eq_false_iff_ne, Ne.symm hcc]
        simp only [h1, Bool.false_eq_true, if_false, Nat.sub_zero] at hrec ⊢
        omega

/-- C6: placements are validated in submitted order against working copies
of the hand and board, each placement checked in the order CardNotInHand,
then InvalidRow, then RowFull; the discard is then validated against the
hand copy already reduced by the placements, so a batch whose discard
equals one of its own placed cards (held only once) fails with
CardNotInHand. -/
theorem applyBatch_validation_order (rules : Rules) :
    (∀ (hand : List Card) (board : Board) (pl : Placement),
        hand.contains pl.card = false →
        placeCheck rules hand board pl = some .CardNotInHand) ∧
    (∀ (hand : List Card) (board : Board) (pl : Placement),
        hand.contains pl.card = true → validRow pl.row = false →
        placeCheck rules hand board pl = some .InvalidRow) ∧
    (∀ (hand : List Card) (board : Board) (pl : Placement),
        hand.contains pl.card = true → validRow pl.row = true →
        rowLimit rules pl.row ≤ (rowGet board pl.row).length →
        placeCheck rules hand board pl = some .RowFull) ∧
    (∀ (hand : List Card) (board : Board) (pl : Placement)
        (rest : List Placement) (e : BatchError),
        placeCheck rules hand board pl = some e →
        placeLoop rules (pl :: rest) hand board = .error e) ∧
    (∀ (hand : List Card) (board : Board) (pl : Placement)
        (rest : List Placement),
        placeCheck rules hand board pl = none →
        placeLoop rules (pl :: rest) hand board =
          placeLoop rules rest (hand.erase pl.card)
            (rowPush board pl.row pl.card)) ∧
    (∀ (phase : String) (p : Player) (b : Batch) (d : Card)
        (h : List Card) (bd : Board),
        phase ≠ "initial-set" →
        b.placements.length = rules.deal.placeCountPerRound →
        b.discard = some d →
        placeLoop rules b.placements p.hand p.board = .ok (h, bd) →
        h.contains d = false →
        applyBatch rules phase p b = .error .CardNotInHand) ∧
    (∀ (phase : String) (p : Player) (b : Batch) (d : Card)
        (h : List Card) (bd : Board),
        phase ≠ "initial-set" →
        b.placements.length = rules.deal.placeCountPerRound →
        b.discard = some d →
        d ∈ b.placements.map Placement.card →
        p.hand.count d = 1 →
        placeLoop rules b.placements p.hand p.board = .ok (h, bd) →
        applyBatch rules phase p b = .error .CardNotInHand) := by
  have discardReduced : ∀ (phase : String) (p : Player) (b : Batch) (d : Card)
      (h : List Card) (bd : Board),
      phase ≠ "initial-set" →
      b.placements.length = rules.deal.placeCountPerRound →
      b.discard = some d →
      placeLoop rules b.placements p.hand p.board = .ok (h, bd) →
      h.contains d = false →
      applyBatch rules phase p b = .error .CardNotInHand := by
    intro phase p b d h bd hph hc hd hpl hcont
    unfold applyBatch
    rw [if_neg hph, if_neg (by simp [hc]), if_neg (by simp [hd])]
    unfold applyBatchCore
    rw [hpl, hd]
    have hnot : d ∉ h := by simpa using hcont
    simp [hnot]
  refine ⟨fun hand board pl hcont => ?_, fun hand board pl hcont hrow => ?_,
    fun hand board pl hcont hrow hfull => ?_, fun hand board pl rest e hc => ?_,
    fun hand board pl rest hc => ?_, discardReduced,
    fun phase p b d h bd hph hc hd hdmem hcnt hpl => ?_⟩
  · have hm : pl.card ∉ hand := by simpa using hcont
    simp [placeCheck, hm]
  · have hm : pl.card ∈ hand := by simpa using hcont
    simp [placeCheck, hm, hrow]
  · have hm : pl.card ∈ hand := by simpa using hcont
    simp [placeCheck, hm, hrow, hfull]
  · simp only [placeLoop, hc]
  · simp only [placeLoop, hc]
  · have hone : 0 < (b.placements.map Placement.card).count d :=
      List.count_pos_iff.mpr hdmem
    have hsum := placeLoop_count rules b.placements p.hand p.board h bd hpl d
    have hzero : h.count d = 0 := by omega
    have hnot : d ∉ h := List.count_eq_zero.mp hzero
    have hcont : h.contains d = false := by
      cases hb : h.contains d with
      | false => rfl
      | true => exact absurd (by simpa using hb) hnot
    exact discardReduced phase p b d h bd hph hc hd hpl hcont

/-- Witness for C6: evaluated instances of each check in order — a missing
card beats an invalid row, an invalid row beats a full row — and a batch
whose discard card was consumed by its own placements is rejected with
CardNotInHand. -/
theorem applyBatch_validation_order_witness :
    placeCheck sampleRules ["As"] ⟨[], [], []⟩ ⟨"nope", "Kd"⟩ =
      some .CardNotInHand ∧
    placeCheck sampleRules ["As"] ⟨["Qh", "Qs", "Qd"], [], []⟩ ⟨"nope", "As"⟩ =
      some .InvalidRow ∧
    placeCheck sampleRules ["As"] ⟨["Qh", "Qs", "Qd"], [], []⟩ ⟨"top", "As"⟩ =
      some .RowFull ∧
    applyBatch sampleRules "round" samplePlayerA
        { placements := [⟨"top", "As"⟩, ⟨"middle", "Kd"⟩], discard := some "As" } =
      .error .CardNotInHand :=
  ⟨(applyBatch_validation_order sampleRules).1 ["As"] ⟨[], [], []⟩
      ⟨"nope", "Kd"⟩ (by decide),
   (applyBatch_validation_order sampleRules).2.1 ["As"] ⟨["Qh", "Qs", "Qd"], [], []⟩
      ⟨"nope", "As"⟩ (by decide) (by decide),
   (applyBatch_validation_order sampleRules).2.2.1 ["As"] ⟨["Qh", "Qs", "Qd"], [], []⟩
      ⟨"top", "As"⟩ (by decide) (by decide) (by decide),
   (applyBatch_validation_order sampleRules).2.2.2.2.2.2 "round" samplePlayerA
      { placements := [⟨"top", "As"⟩, ⟨"middle", "Kd"⟩], discard := some "As" }
      "As" ["Qh"] ⟨["As"], ["Kd"], []⟩ (by decide) (by decide) rfl (by decide)
      (by decide) rfl⟩

/-- C10: the legacy placeHandler loop mutates the player's hand and board
one placement at a time and returns on the first invalid placement: if the
element at index k fails its check after the first k placements succeeded,
the handler returns that error with the player state of the first k
placements still committed — not all-or-nothing. -/
theorem placeHandler_partial_commit (rules : Rules) :
    ∀ (ps : List Placement) (k : Nat) (p : Player) (pl : Placement)
      (e : BatchError),
      ps[k]? = some pl →
      (placeHandlerLoop rules (ps.take k) p).1 = none →
      placeCheck rules (placeHandlerLoop rules (ps.take k) p).2.hand
        (placeHandlerLoop rules (ps.take k) p).2.board pl = some e →
      placeHandlerLoop rules ps p =
        (some e, (placeHandlerLoop rules (ps.take k) p).2) := by
  intro ps
  induction ps with
  | nil => intro k p pl e hk; simp at hk
  | cons q rest ih =>
    intro k p pl e hk hpre hfail
    cases k with
    | zero =>
      simp only [List.getElem?_cons_zero, Option.some.injEq] at hk
      subst hk
      simp only [List.take_zero, placeHandlerLoop] at hpre hfail ⊢
      simp only [hfail]
    | succ k =>
      simp only [List.getElem?_cons_succ] at hk
      rw [List.take_succ_cons] at hpre hfail ⊢
      cases hq : placeCheck rules p.hand p.board q with
      | some e' =>
        simp only [placeHandlerLoop, hq] at hpre
        simp at hpre
      | none =>
        simp only [placeHandlerLoop, hq] at hpre hfail ⊢
        exact ih k _ pl e hk hpre hfail

/-- Witness for C10: a two-placement batch whose second placement names an
invalid row leaves the first placement committed: the handler returns
InvalidRow with the first card already moved from hand to the top row. -/
theorem placeHandler_partial_commit_witness :
    placeHandlerLoop sampleRules [⟨"top", "As"⟩, ⟨"nope", "Kd"⟩] samplePlayerA =
      (some .InvalidRow,
        { userId := "u1", name := "A", board := ⟨["As"], [], []⟩,
          hand := ["Kd", "Qh"], discards := [], ready := false }) :=
  placeHandler_partial_commit sampleRules [⟨"top", "As"⟩, ⟨"nope", "Kd"⟩] 1
    samplePlayerA ⟨"nope", "Kd"⟩ .InvalidRow rfl rfl rfl

theorem mapGet_mapSet (m : List (String × Player)) (k : String) (v : Player) :
    mapGet (mapSet m k v) k = some v := by
  induction m with
  | nil => simp [mapGet, mapSet]
  | cons kv rest ih =>
    obtain ⟨k', v'⟩ := kv
    by_cases h : k' = k
    · simp [mapGet, mapSet, h]
    · simp [mapGet, mapSet, h, ih]

theorem mapSet_keys_of_mem (m : List (String × Player)) (k : String)
    (p v : Player) (h : mapGet m k = some p) :
    (mapSet m k v).map Prod.fst = m.map Prod.fst := by
  induction m with
  | nil => simp [mapGet] at h
  | cons kv rest ih =>
    obtain ⟨k', v'⟩ := kv
    by_cases hk : k' = k
    · subst hk
      simp [mapSet]
    · simp only [mapGet, if_neg hk] at h
      simp [mapSet, hk, ih h]

def sampleRoomTwo : Room :=
  { id := "r", phase := "waiting", round := 0, roundIndex := 0,
    players := [("u1", samplePlayerA), ("u2", samplePlayerB)], deck := [] }

def sampleRoomOne : Room :=
  { id := "r", phase := "waiting", round := 0, roundIndex := 0,
    players := [("u1", samplePlayerA)], deck := [] }

def sampleRoomFull : Room :=
  { id := "r", phase := "waiting", round := 0, roundIndex := 0,
    players := [("u1", samplePlayerA), ("u2", samplePlayerB),
                ("u3", samplePlayerB), ("u4", samplePlayerB)], deck := [] }

/-- C7: startRound (reached through startRoundHandler, which pre-checks the
minimum with "Need more players") succeeds if and only if the room's player
count lies in `[players.min, players.max]`; outside the interval it fails
with InsufficientPlayers, returning no new room state. -/
theorem startRound_player_bounds (rules : Rules) (deck : List Card)
    (room : Room) :
    ((∃ r, startRoundHandler rules deck room = .ok r) ↔
      (rules.players.min ≤ room.players.length ∧
        room.players.length ≤ rules.players.max)) ∧
    (¬ (rules.players.min ≤ room.players.length ∧
        room.players.length ≤ rules.players.max) →
      startRoundHandler rules deck room = .error .InsufficientPlayers) := by
  unfold startRoundHandler startRound
  by_cases h1 : room.players.length < rules.players.min
  · rw [if_pos h1]
    exact ⟨⟨fun ⟨r, hr⟩ => by simp at hr, fun ⟨ha, _⟩ => absurd h1 (by omega)⟩,
      fun _ => rfl⟩
  · rw [if_neg h1]
    by_cases h2 : room.players.length < rules.players.min ∨
        rules.players.max < room.players.length
    · rw [if_pos h2]
      refine ⟨⟨fun ⟨r, hr⟩ => by simp at hr, fun ⟨ha, hb⟩ => ?_⟩, fun _ => rfl⟩
      rcases h2 with h2 | h2 <;> omega
    · rw [if_neg h2]
      obtain ⟨h2a, h2b⟩ := not_or.mp h2
      refine ⟨⟨fun _ => ⟨by omega, by omega⟩, fun _ => ⟨_, rfl⟩⟩,
        fun hc => absurd ⟨by omega, by omega⟩ hc⟩

/-- Witness for C7: with bounds [2, 4], a one-player room is rejected with
InsufficientPlayers and a two-player room starts successfully. -/
theorem startRound_player_bounds_witness :
    startRoundHandler sampleRules [] sampleRoomOne = .error .InsufficientPlayers ∧
    (∃ r, startRoundHandler sampleRules [] sampleRoomTwo = .ok r) :=
  ⟨(startRound_player_bounds sampleRules [] sampleRoomOne).2 (by decide),
   (startRound_player_bounds sampleRules [] sampleRoomTwo).1.mpr (by decide)⟩

/-- C9: a join with an id already present in a below-capacity room succeeds
with no membership check: the existing entry is replaced in place by a
fresh player (empty board rows, empty hand, empty discards, ready false),
the key set unchanged, discarding any mid-hand state; if the room is at
`players.max` the rejoin is rejected as RoomFull even though it would not
grow the player set. -/
theorem joinRoomHandler_rejoin (rules : Rules) (room : Room)
    (userId nm : String) (p : Player)
    (hmem : mapGet room.players userId = some p) :
    (room.players.length < rules.players.max →
      joinRoomHandler rules room userId nm =
        .ok { room with
                players := mapSet room.players userId (freshPlayer userId nm) } ∧
      mapGet (mapSet room.players userId (freshPlayer userId nm)) userId =
        some (freshPlayer userId nm) ∧
      (mapSet room.players userId (freshPlayer userId nm)).map Prod.fst =
        room.players.map Prod.fst ∧
      (freshPlayer userId nm).hand = [] ∧
      (freshPlayer userId nm).board = ⟨[], [], []⟩ ∧
      (freshPlayer userId nm).discards = [] ∧
      (freshPlayer userId nm).ready = false) ∧
    (rules.players.max ≤ room.players.length →
      joinRoomHandler rules room userId nm = .error .RoomFull) := by
  refine ⟨fun hlt => ?_, fun hge => ?_⟩
  · refine ⟨?_, mapGet_mapSet _ _ _, mapSet_keys_of_mem _ _ p _ hmem,
      rfl, rfl, rfl, rfl⟩
    unfold joinRoomHandler
    rw [if_neg (by omega)]
  · unfold joinRoomHandler
    rw [if_pos hge]

/-- Witness for C9: rejoining a two-player room replaces the player's
entry with a fresh one, while rejoining a four-player (full) room is
rejected with RoomFull. -/
theorem joinRoomHandler_rejoin_witness :
    joinRoomHandler sampleRules sampleRoomTwo "u1" "A" =
      .ok { sampleRoomTwo with
              players := mapSet sampleRoomTwo.players "u1" (freshPlayer "u1" "A") } ∧
    joinRoomHandler sampleRules sampleRoomFull "u1" "A" = .error .RoomFull :=
  ⟨((joinRoomHandler_rejoin sampleRules sampleRoomTwo "u1" "A" samplePlayerA
      rfl).1 (by decide)).1,
   (joinRoomHandler_rejoin sampleRules sampleRoomFull "u1" "A" samplePlayerA
      rfl).2 (by decide)⟩

def sampleRoomTwoRound : Room :=
  { id := "r", phase := "round", round := 0, roundIndex := 0,
    players := [("u1", samplePlayerA), ("u2", samplePlayerB)], deck := [] }

def samplePlayerC : Player :=
  { userId := "u1", name := "A", board := ⟨["As"], [], []⟩,
    hand := ["Kd", "Qh"], discards := [], ready := false }

def samplePlayerD : Player :=
  { userId := "u1", name := "A", board := ⟨["2c"], [], []⟩,
    hand := ["7h"], discards := ["9s"], ready := false }

def sampleRoomC : Room :=
  { id := "r", phase := "round", round := 1, roundIndex := 1,
    players := [("u1", samplePlayerC)], deck := [] }

def sampleRoomD : Room :=
  { id := "r", phase := "round", round := 1, roundIndex := 1,
    players := [("u1", samplePlayerD)], deck := ["Td"] }

/-- C8 counterexample: two rooms with byte-for-byte identical player maps
(hence identical per-player ids, names, placed counts and ready flags) but
different phases produce different room_state payloads, so agreement on the
per-player counts and flags alone does not make the payload identical. -/
theorem emitRoomState_not_players_only :
    sampleRoomTwo.players = sampleRoomTwoRound.players ∧
    emitRoomState sampleRoomTwo ≠ emitRoomState sampleRoomTwoRound :=
  ⟨rfl, by decide⟩

/-- C8 (amended): the public room_state payload carries, per player, only
the id, name, per-row placed counts and ready flag — no card value from any
hand, board row or discard pile — so two room states that agree on those
per-player fields and on the room's id, phase and round produce identical
payloads. -/
theorem emitRoomState_redacts (r1 r2 : Room)
    (hid : r1.id = r2.id) (hph : r1.phase = r2.phase) (hrd : r1.round = r2.round)
    (hps : List.Forall₂ (fun a b : String × Player =>
        a.2.userId = b.2.userId ∧ a.2.name = b.2.name ∧
        a.2.board.top.length = b.2.board.top.length ∧
        a.2.board.middle.length = b.2.board.middle.length ∧
        a.2.board.bottom.length = b.2.board.bottom.length ∧
        a.2.ready = b.2.ready) r1.players r2.players) :
    emitRoomState r1 = emitRoomState r2 := by
  unfold emitRoomState
  simp only [RoomStatePayload.mk.injEq]
  refine ⟨hid, hph, hrd, ?_⟩
  have key : ∀ (l1 l2 : List (String × Player)),
      List.Forall₂ (fun a b : String × Player =>
        a.2.userId = b.2.userId ∧ a.2.name = b.2.name ∧
        a.2.board.top.length = b.2.board.top.length ∧
        a.2.board.middle.length = b.2.board.middle.length ∧
        a.2.board.bottom.length = b.2.board.bottom.length ∧
        a.2.ready = b.2.ready) l1 l2 →
      l1.map (fun kv => publicPlayer kv.2) = l2.map (fun kv => publicPlayer kv.2) := by
    intro l1 l2 hf
    induction hf with
    | nil => rfl
    | cons h t ih =>
      obtain ⟨h1, h2, h3, h4, h5, h6⟩ := h
      simp only [List.map_cons, List.cons.injEq]
      exact ⟨by simp only [publicPlayer, h1, h2, h3, h4, h5, h6], ih⟩
  exact key _ _ hps

/-- Witness for C8 (amended): two one-player rooms whose players hold
different hands, differently valued boards of the same shape, and different
discards — and whose decks differ — emit identical payloads because the
redacted fields agree. -/
theorem emitRoomState_redacts_witness :
    emitRoomState sampleRoomC = emitRoomState sampleRoomD :=
  emitRoomState_redacts sampleRoomC sampleRoomD rfl rfl rfl
    (List.Forall₂.cons ⟨rfl, rfl, rfl, rfl, rfl, rfl⟩ List.Forall₂.nil)

/-! ## Lemmas for the barrier transition -/

theorem clearReady_length (ps : List (String × Player)) :
    (clearReady ps).length = ps.length :=
  List.length_map _ _

theorem mapSet_length_of_mem (m : List (String × Player)) (k : String)
    (p v : Player) (h : mapGet m k = some p) :
    (mapSet m k v).length = m.length := by
  have hk := mapSet_keys_of_mem m k p v h
  have h1 : ((mapSet m k v).map Prod.fst).length = (m.map Prod.fst).length := by
    rw [hk]
  simpa using h1

theorem dealToAll_eq_some (room : Room) (n : Nat)
    (h : n * room.players.length ≤ room.deck.length) :
    dealToAll room n =
      some { room with players := (dealGo n room.players room.deck).1,
                       deck := (dealGo n room.players room.deck).2 } := by
  unfold dealToAll
  rw [if_neg (by omega)]

theorem dealGo_clearReady_spec (n : Nat) :
    ∀ (ps : List (String × Player)) (deck : List Card),
      n * ps.length ≤ deck.length →
      List.Forall₂ (fun ov nv : String × Player =>
          nv.1 = ov.1 ∧ nv.2.userId = ov.2.userId ∧ nv.2.name = ov.2.name ∧
          nv.2.board = ov.2.board ∧ nv.2.discards = ov.2.discards ∧
          nv.2.ready = false ∧
          ∃ c : List Card, c.length = n ∧ nv.2.hand = ov.2.hand ++ c)
        ps (dealGo n (clearReady ps) deck).1 := by
  intro ps
  induction ps with
  | nil => intro deck hlen; exact List.Forall₂.nil
  | cons kv rest ih =>
    intro deck hlen
    obtain ⟨k, p⟩ := kv
    rw [List.length_cons, Nat.mul_succ] at hlen
    simp only [clearReady, List.map_cons, dealGo]
    refine List.Forall₂.cons ?_ ?_
    · refine ⟨rfl, rfl, rfl, rfl, rfl, rfl, deck.take n, ?_, rfl⟩
      rw [List.length_take]
      omega
    · have := ih (deck.drop n) (by rw [List.length_drop]; omega)
      simpa [clearReady] using this

theorem dealGo_clearReady_ready (n : Nat) :
    ∀ (ps : List (String × Player)) (deck : List Card),
      ∀ kv ∈ (dealGo n (clearReady ps) deck).1, kv.2.ready = false := by
  intro ps
  induction ps with
  | nil => intro deck kv hkv; simp [clearReady, dealGo] at hkv
  | cons hd rest ih =>
    intro deck kv hkv
    obtain ⟨k, p⟩ := hd
    simp only [clearReady, List.map_cons, dealGo, List.mem_cons] at hkv
    rcases hkv with rfl | hkv
    · rfl
    · exact ih (deck.drop n) kv (by simpa [clearReady] using hkv)

theorem clearReady_ready (ps : List (String × Player)) :
    ∀ kv ∈ clearReady ps, kv.2.ready = false := by
  intro kv hkv
  simp only [clearReady, List.mem_map] at hkv
  obtain ⟨a, -, rfl⟩ := hkv
  rfl

theorem clearReady_map_public (ps : List (String × Player)) :
    (clearReady ps).map (fun kv => (kv.2.userId, kv.2.board)) =
      ps.map (fun kv => (kv.2.userId, kv.2.board)) := by
  induction ps with
  | nil => rfl
  | cons kv rest ih =>
    simp only [clearReady, List.map_cons] at ih ⊢
    rw [ih]

/-- C2: after a successful commit inside readyHandler — the batch applied
and the committing player's ready flag set, giving the intermediate room
`room1` — the barrier behaves as specified: if not every player is ready
there is no transition (phase, roundIndex and every hand are exactly those
of `room1`); if every player is ready, all ready flags are cleared and
exactly one transition occurs: while `roundIndex < deal.rounds`, phase
becomes "round", roundIndex increments by one and every player is dealt
exactly `cardsPerRound` cards (given a sufficient deck); otherwise phase
becomes "reveal", roundIndex is unchanged and the boards are handed to
settlement exactly once. -/
theorem readyHandler_barrier (rules : Rules) (room : Room) (userId : String)
    (b : Batch) (p p' : Player) (room1 : Room)
    (hp : mapGet room.players userId = some p)
    (hok : applyBatch rules room.phase p b = .ok p')
    (hroom1 : room1 =
      { room with
          players := mapSet room.players userId { p' with ready := true } })
    (hdeck : rules.deal.cardsPerRound * room.players.length ≤ room.deck.length) :
    (allReady room1 = false →
      readyHandler rules room userId b = ⟨room1, none, none, false⟩ ∧
      (readyHandler rules room userId b).room.phase = room.phase ∧
      (readyHandler rules room userId b).room.roundIndex = room.roundIndex ∧
      (readyHandler rules room userId b).room.players.map (fun kv => kv.2.hand) =
        room1.players.map (fun kv => kv.2.hand)) ∧
    (allReady room1 = true →
      (∀ kv ∈ (readyHandler rules room userId b).room.players,
        kv.2.ready = false) ∧
      (room.roundIndex < rules.deal.rounds →
        (readyHandler rules room userId b).room.phase = "round" ∧
        (readyHandler rules room userId b).room.roundIndex =
          room.roundIndex + 1 ∧
        (readyHandler rules room userId b).reveal = none ∧
        List.Forall₂ (fun ov nv : String × Player =>
            nv.1 = ov.1 ∧ ∃ c : List Card,
              c.length = rules.deal.cardsPerRound ∧
              nv.2.hand = ov.2.hand ++ c)
          room1.players (readyHandler rules room userId b).room.players) ∧
      (¬ room.roundIndex < rules.deal.rounds →
        (readyHandler rules room userId b).room.phase = "reveal" ∧
        (readyHandler rules room userId b).room.roundIndex = room.roundIndex ∧
        (readyHandler rules room userId b).reveal =
          some (room1.players.map (fun kv => (kv.2.userId, kv.2.board))))) := by
  have hred : readyHandler rules room userId b =
      advanceAfterCommit rules
        { room with
            players := mapSet room.players userId { p' with ready := true } } := by
    unfold readyHandler
    simp only [hp, hok]
  subst hroom1
  have hlen1 : (mapSet room.players userId { p' with ready := true }).length =
      room.players.length :=
    mapSet_length_of_mem room.players userId p _ hp
  refine ⟨fun hfalse => ?_, fun htrue => ?_⟩
  · have hADV : advanceAfterCommit rules
        { room with
            players := mapSet room.players userId { p' with ready := true } } =
        ⟨{ room with
             players := mapSet room.players userId { p' with ready := true } },
          none, none, false⟩ := by
      unfold advanceAfterCommit
      rw [if_neg (by simp [hfalse])]
    rw [hred, hADV]
    exact ⟨rfl, rfl, rfl, rfl⟩
  · have hdeck2 : rules.deal.cardsPerRound *
        (clearReady (mapSet room.players userId { p' with ready := true })).length
        ≤ room.deck.length := by
      rw [clearReady_length, hlen1]
      exact hdeck
    by_cases hlt : room.roundIndex < rules.deal.rounds
    · rw [hred]
      unfold advanceAfterCommit
      rw [if_pos htrue, if_pos hlt, dealToAll_eq_some _ _ hdeck2]
      refine ⟨?_, fun _ => ⟨rfl, rfl, rfl, ?_⟩, fun hge => absurd hlt hge⟩
      · exact dealGo_clearReady_ready rules.deal.cardsPerRound
          (mapSet room.players userId { p' with ready := true }) room.deck
      · exact (dealGo_clearReady_spec rules.deal.cardsPerRound
            (mapSet room.players userId { p' with ready := true }) room.deck
            (by rw [hlen1]; exact hdeck)).imp
          (fun ov nv h => ⟨h.1, h.2.2.2.2.2.2⟩)
    · rw [hred]
      unfold advanceAfterCommit
      rw [if_pos htrue, if_neg hlt]
      refine ⟨?_, fun hc => absurd hc hlt, fun _ => ⟨rfl, rfl, ?_⟩⟩
      · exact clearReady_ready
          (mapSet room.players userId { p' with ready := true })
      · simp only [clearReady_map_public]

def samplePlayerE : Player :=
  { userId := "u1", name := "A", board := ⟨[], [], []⟩,
    hand := ["As", "Kd", "Qh", "Jc", "Ts"], discards := [], ready := false }

def sampleRoomBarrier : Room :=
  { id := "r", phase := "initial-set", round := 1, roundIndex := 0,
    players := [("u1", samplePlayerE)], deck := ["2c", "3c", "4c"] }

/-- Witness for C2: in a one-player room during initial-set, an empty
commit makes the single player ready, so the barrier fires the deal
transition: phase becomes "round", roundIndex goes from 0 to 1, and the
player's hand grows by `cardsPerRound`. -/
theorem readyHandler_barrier_witness :
    (readyHandler sampleRules sampleRoomBarrier "u1"
      { placements := [], discard := none }).room.phase = "round" ∧
    (readyHandler sampleRules sampleRoomBarrier "u1"
      { placements := [], discard := none }).room.roundIndex = 1 ∧
    (readyHandler sampleRules sampleRoomBarrier "u1"
      { placements := [], discard := none }).reveal = none := by
  have h := readyHandler_barrier sampleRules sampleRoomBarrier "u1"
      { placements := [], discard := none } samplePlayerE samplePlayerE
      { sampleRoomBarrier with
          players := mapSet sampleRoomBarrier.players "u1"
            { samplePlayerE with ready := true } }
      rfl rfl rfl (by decide)
  have h2 := h.2 (by decide)
  have h3 := h2.2.1 (by decide)
  exact ⟨h3.1, h3.2.1, h3.2.2.1⟩

end OFC
